import Mathlib

/-!
Verification development for the `architector` architecture-conformance
checker.  The Python sources under `lib/` are shallowly embedded:

* `lib/fs.py`      — filesystem scanner and index (`FSEntry`, `FSData`, `FSScanner`);
* `lib/code.py`    — translation-unit parser (`CodeNode`, `CodeDep`, `TUParser`);
* `lib/puml.py`    — diagram binder and rule expansion (`PumlParser`);
* `lib/arch.py`    — matrix conformance engine (`ArchAnalyzer.analyze`).

Python dictionaries are embedded as association lists with overwrite
semantics (`dictGet` / `dictSet`), numpy matrices as functions
`Nat → Nat → Nat`, and Python exceptions as `Except String`.  Mutable
Python lists that are shared by reference (the `fs_ids` lists of
`PumlNode`s, aliased by `fs_groups`) are embedded as a heap (`Store`)
keyed by the owning node's diagram id, so that in-place `extend` calls
are visible to every holder of the reference.  `os.path.abspath` and
`os.path.realpath` are environment parameters (`String → String`).
-/

namespace Architector

/-- Lookup in a Python dict embedded as an insertion-ordered association
list: later assignments shadow earlier ones (last write wins). -/
def dictGet {α β : Type} [DecidableEq α] : List (α × β) → α → Option β
  | [], _ => none
  | (k2, v) :: rest, k =>
    match dictGet rest k with
    | some v2 => some v2
    | none => if k = k2 then some v else none

/-- Assignment `d[k] = v` in a Python dict: overwrite the existing
binding in place, or append a fresh one. -/
def dictSet {α β : Type} [DecidableEq α] : List (α × β) → α → β → List (α × β)
  | [], k, v => [(k, v)]
  | (k2, w) :: rest, k, v =>
    if k2 = k then (k2, v) :: rest else (k2, w) :: dictSet rest k v

/-- A numpy matrix of counts, embedded as a total function on indices. -/
abbrev Mat := Nat → Nat → Nat

/-- Pointwise matrix assignment `m[(i, j)] = v`. -/
def matSet (m : Mat) (i j v : Nat) : Mat :=
  fun a b => if a = i ∧ b = j then v else m a b

/-- Python `str` applied to an optional string (`str(None) = "None"`). -/
def pyStr : Option String → String
  | none => "None"
  | some s => s

/-- `s.startswith(pre)`, computed on the character lists so the kernel
can evaluate it. -/
def strStartsWith (s pre : String) : Bool :=
  pre.data.isPrefixOf s.data

/-- `s.endswith(suff)`, computed on the character lists. -/
def strEndsWith (s suff : String) : Bool :=
  suff.data.isSuffixOf s.data

/-- `s.lower()`, computed on the character lists. -/
def strToLower (s : String) : String :=
  ⟨s.data.map Char.toLower⟩

/-- `os.path.join` for the shapes used by the sources: an absolute second
component replaces the first, otherwise the two are joined with `/`. -/
def pjoin (a b : String) : String :=
  if strStartsWith b "/" then b else a ++ "/" ++ b

/-- `os.path.dirname` for the path shapes used here: strip the final
path component, keeping everything before the last separator. -/
def dirname (s : String) : String :=
  ⟨(((s.data.reverse.dropWhile (fun c => c ≠ '/')).drop 1)).reverse⟩

/-- Occurrence of `sub` somewhere in `l`. -/
def listHasInfix (sub : List Char) : List Char → Bool
  | [] => sub.isPrefixOf []
  | c :: rest => sub.isPrefixOf (c :: rest) || listHasInfix sub rest

/-- Python's `sub in s` substring test. -/
def strContains (s sub : String) : Bool :=
  listHasInfix sub.data s.data

/-! ## lib/fs.py — filesystem model -/

/-- `FSEntry` from `lib/fs.py`: a scanned filesystem node.  The children
list is only populated for directories. -/
inductive FSEntry where
  | mk (id : Nat) (name : String) (full_path : String) (is_dir : Bool)
      (children : List FSEntry)

def FSEntry.id : FSEntry → Nat
  | .mk i _ _ _ _ => i

def FSEntry.name : FSEntry → String
  | .mk _ n _ _ _ => n

def FSEntry.full_path : FSEntry → String
  | .mk _ _ p _ _ => p

def FSEntry.isDir : FSEntry → Bool
  | .mk _ _ _ d _ => d

def FSEntry.children : FSEntry → List FSEntry
  | .mk _ _ _ _ cs => cs

mutual

/-- `FSData.get_desc_ids` restricted to one entry: the id of the entry
followed by the ids of its descendants, preorder.  The Python code
re-reads each child through `self.index`; after a scan the index maps
every child id to the child itself, so the structural recursion agrees. -/
def FSEntry.descIds : FSEntry → List Nat
  | .mk i _ _ _ cs => i :: FSEntry.descIdsList cs

def FSEntry.descIdsList : List FSEntry → List Nat
  | [] => []
  | e :: es => e.descIds ++ FSEntry.descIdsList es

end

/-- `FSData` from `lib/fs.py`: the id index, the canonical-path index and
the root entry.  Both dicts are embedded as association lists in
insertion order. -/
structure FSData where
  index : List (Nat × FSEntry) := []
  file_index : List (String × FSEntry) := []
  root : Option FSEntry := none

/-- `FSData.get_desc_ids`: look the id up in the index and collect the
subtree's ids; a missing id raises `KeyError`. -/
def FSData.getDescIds (fsd : FSData) (i : Nat) : Except String (List Nat) :=
  match dictGet fsd.index i with
  | some e => .ok e.descIds
  | none => .error "KeyError"

/-- `FSData.get_full_path_by_id`: `self.index[id].full_path`. -/
def FSData.getFullPathById (fsd : FSData) (i : Nat) : Except String String :=
  match dictGet fsd.index i with
  | some e => .ok e.full_path
  | none => .error "KeyError"

/-- The filesystem underneath the scan root, as the OS enumerates it:
`os.scandir` yields the listed entries in list order. -/
inductive DirEnt where
  | mk (name : String) (is_dir : Bool) (entries : List DirEnt)

/-- Path-resolution environment: `os.path.abspath` and
`os.path.realpath` of the host.  `realpath` additionally resolves
symbolic links. -/
structure ScanEnv where
  abspath : String → String
  realpath : String → String

/-- `FSScanner.file_extensions`. -/
def scanExtensions : List String := [".c", ".cc", ".cpp", ".cxx", ".h", ".hpp"]

/-- `FSScanner.excludes`. -/
def scanExcludes : List String := ["/build", ".git", "/tools/"]

/-- `FSScanner._entry_filter`: directories or files with a recognized
extension, minus excluded path fragments. -/
def entryFilter (name path : String) (isDir : Bool) : Bool :=
  (isDir || scanExtensions.any (fun ext => strEndsWith (strToLower name) ext))
    && !(scanExcludes.any (fun ex => strContains path ex))

mutual

/-- `FSScanner._walk_directory`, one directory entry.  Returns the
constructed child (if the filter admits it), the id-index and path-index
insertions it contributes, and the updated id counter.  The Python code
registers the entry before walking into it and then mutates its children
list in place; the returned snapshot carries the fully populated
children, which is the state every index alias sees once the scan is
done. -/
def walkEnt (env : ScanEnv) (curDir : String) :
    DirEnt → Nat → Option FSEntry × List (Nat × FSEntry) × List (String × FSEntry) × Nat
  | .mk name isDir entries, ctr =>
    let path := pjoin curDir name
    if entryFilter name path isDir then
      if isDir then
        let r := walkEnts env path entries (ctr + 1)
        let fe := FSEntry.mk ctr name (env.realpath path) true r.1
        (some fe, (ctr, fe) :: r.2.1, (env.realpath path, fe) :: r.2.2.1, r.2.2.2)
      else
        let fe := FSEntry.mk ctr name (env.realpath path) false []
        (some fe, [(ctr, fe)], [(env.realpath path, fe)], ctr + 1)
    else (none, [], [], ctr)

def walkEnts (env : ScanEnv) (curDir : String) :
    List DirEnt → Nat → List FSEntry × List (Nat × FSEntry) × List (String × FSEntry) × Nat
  | [], ctr => ([], [], [], ctr)
  | e :: es, ctr =>
    let r1 := walkEnt env curDir e ctr
    let r2 := walkEnts env curDir es r1.2.2.2
    (r1.1.toList ++ r2.1, r1.2.1 ++ r2.2.1, r1.2.2.1 ++ r2.2.2.1, r2.2.2.2)

end

/-- `FSScanner.scan`: the root entry is created first with id 0, name
`os.path.dirname(base_dir)` and full path `os.path.abspath(base_dir)`,
then the tree walk populates it.  Note the root path goes through
`abspath`, every other entry through `realpath`. -/
def FSScanner.scan (env : ScanEnv) (baseDir : String) (tree : List DirEnt) : FSData :=
  let r := walkEnts env baseDir tree 1
  let root := FSEntry.mk 0 (dirname baseDir) (env.abspath baseDir) true r.1
  { index := (0, root) :: r.2.1
    file_index := (env.abspath baseDir, root) :: r.2.2.1
    root := some root }

/-- Modelled from the spec: the OS paths of the entries the scan admits,
in scan order ("Paths are canonicalized (symlinks resolved)", section
4.A).  Used to compare the stored `full_path`s against the symlink-free
canonical form of the same walk. -/
def walkPathsSpec (curDir : String) : List DirEnt → List String
  | [] => []
  | .mk name isDir entries :: es =>
    let path := pjoin curDir name
    (if entryFilter name path isDir then
      path :: (if isDir then walkPathsSpec path entries else [])
    else []) ++ walkPathsSpec curDir es

/-! ## lib/code.py — translation-unit parser -/

/-- `CodeNode` from `lib/code.py`: the file is
`os.path.realpath(str(cursor.location.file))`, the rest is copied off
the cursor's extent. -/
structure CodeNode where
  id : Nat
  file : String
  start_line : Nat
  end_line : Nat
  start_col : Nat
  end_col : Nat
  kind : String
deriving DecidableEq

/-- `CodeRef`: both fields are untyped in Python and may be `None`. -/
structure CodeRef where
  fs_id : Option Nat
  code_node : Option CodeNode
deriving DecidableEq

/-- `CodeDep`: one extracted file-to-file dependency edge. -/
structure CodeDep where
  src : CodeRef
  dst : CodeRef
deriving DecidableEq

/-- The fields of a libclang cursor that the parser reads: the hash, the
kind (as its numeric enumeration value and its printed form), the
location's file and system-header classification, and the extent. -/
structure CurBase where
  hash : Nat
  kindVal : Nat
  kindStr : String
  file : Option String
  inSysHeader : Bool
  startLine : Nat
  startCol : Nat
  endLine : Nat
  endCol : Nat
deriving DecidableEq

/-- A cursor together with its referenced cursor (flattened to the
fields the parser reads from it) and the result of
`get_included_file()` for inclusion directives. -/
structure CurInfo extends CurBase where
  referenced : Option CurBase
  includedFile : Option String
deriving DecidableEq

/-- The cursor tree of one translation unit. -/
inductive Cursor where
  | mk (info : CurInfo) (children : List Cursor)

def Cursor.info : Cursor → CurInfo
  | .mk i _ => i

def Cursor.children : Cursor → List Cursor
  | .mk _ cs => cs

/-- `CodeNode.__init__` applied to a cursor, with `rp` standing for
`os.path.realpath`. -/
def mkCodeNode (rp : String → String) (c : CurBase) : CodeNode :=
  { id := c.hash
    file := rp (pyStr c.file)
    start_line := c.startLine
    end_line := c.endLine
    start_col := c.startCol
    end_col := c.endCol
    kind := c.kindStr }

/-- `TUParser._cursor_skip`: cursors in system headers are skipped. -/
def cursorSkip (c : CurInfo) : Bool := c.inSysHeader

/-- `TUParser._cursor_kind_filter`: inclusion directive (503), the
reference kinds 40–50, or the expression-reference kinds 101–103. -/
def cursorKindFilter (k : Nat) : Bool :=
  decide (k = 503 ∨ (40 ≤ k ∧ k ≤ 50) ∨ (101 ≤ k ∧ k ≤ 103))

/-- `TUParser._cursor_filter`: the cursor must have a referenced cursor
outside system headers with a known file different from the cursor's own
file.  Reading `cursor.location.file.name` when the location has no file
raises `AttributeError` (caught by the walker). -/
def cursorFilter (c : CurInfo) : Except String Bool :=
  match c.referenced with
  | none => .ok false
  | some r =>
    if r.inSysHeader then .ok false
    else
      match r.file with
      | none => .ok false
      | some rf =>
        match c.file with
        | none => .error "AttributeError"
        | some f => .ok (decide (f ≠ rf))

/-- `TUParser._get_cursor_fs_id`, with `ap` standing for
`os.path.abspath`: look the path up in `file_index`, `None` on a miss. -/
def getCursorFsId (ap : String → String) (fsd : FSData) (p : String) : Option Nat :=
  (dictGet fsd.file_index (ap p)).map FSEntry.id

/-- `TUParser._create_code_dep`.  Returns `.ok none` where the Python
code returns without appending, `.error` where it raises (the caller
catches and drops the edge), and `.ok (some dep)` for an appended
dependency. -/
def createCodeDep (rp ap : String → String) (fsd : FSData) (c : CurInfo)
    (dstFile : Option String) : Except String (Option CodeDep) :=
  let node_src := mkCodeNode rp c.toCurBase
  let fs_id_src := getCursorFsId ap fsd node_src.file
  match dstFile, c.referenced with
  | none, some r =>
    match r.file with
    | none => .ok none
    | some _ =>
      let node_dst := mkCodeNode rp r
      let fs_id_dst := getCursorFsId ap fsd node_dst.file
      match fs_id_src, fs_id_dst with
      | some s, some d =>
        .ok (some { src := { fs_id := some s, code_node := some node_src }
                    dst := { fs_id := some d, code_node := some node_dst } })
      | _, _ => .error "Filesystem IDs could not be retrieved"
  | some df, _ =>
    let fs_id_dst := getCursorFsId ap fsd df
    match fs_id_dst with
    | none => .ok none
    | some d =>
      match fs_id_src with
      | some s =>
        .ok (some { src := { fs_id := some s, code_node := some node_src }
                    dst := { fs_id := some d, code_node := none } })
      | none => .error "Filesystem IDs could not be retrieved"
  | none, none => .error "TypeError"

mutual

/-- `TUParser._handle_cursor`: skip system headers, recurse into the
children (each child call carries its own try/except), then emit an edge
for inclusion directives with a resolved include file or for reference
cursors passing `_cursor_filter`.  Exceptions raised while handling the
cursor itself are caught and only suppress that cursor's edge. -/
def handleCursor (rp ap : String → String) (fsd : FSData) : Cursor → List CodeDep
  | .mk info children =>
    if cursorSkip info then []
    else
      let childDeps := handleCursorList rp ap fsd children
      let ownDeps :=
        if cursorKindFilter info.kindVal then
          if info.kindVal = 503 then
            match info.includedFile with
            | some inc =>
              match createCodeDep rp ap fsd info (some inc) with
              | .ok (some dep) => [dep]
              | _ => []
            | none => []
          else
            match cursorFilter info with
            | .ok true =>
              match createCodeDep rp ap fsd info none with
              | .ok (some dep) => [dep]
              | _ => []
            | _ => []
        else []
      childDeps ++ ownDeps

def handleCursorList (rp ap : String → String) (fsd : FSData) : List Cursor → List CodeDep
  | [] => []
  | c :: cs => handleCursor rp ap fsd c ++ handleCursorList rp ap fsd cs

end

/-- `TUParser._print_diagnostics`: flags failure when some diagnostic
severity exceeds 3 (the libclang scale puts warnings at 2, errors at 3
and fatal errors at 4). -/
def printDiagnostics (diags : List Nat) : Bool :=
  diags.foldl (fun fail sev => if sev > 3 then true else fail) false

/-- Modelled from the spec: the libclang severity threshold called
"warning" in section 4.D and 7 (`TUDiagnostic`); on the front-end's
scale ignored = 0, note = 1, warning = 2, error = 3, fatal = 4. -/
def warningSeverity : Nat := 2

/-- `TUParser.parse` after the front-end produced the cursor tree and
diagnostics: abort the run when `_print_diagnostics` flags failure,
otherwise walk the tree and return the collected dependencies. -/
def TUParser.parse (rp ap : String → String) (fsd : FSData) (diags : List Nat)
    (root : Cursor) : Except String (List CodeDep) :=
  if printDiagnostics diags then .error "Check Diagnostics!"
  else .ok (handleCursor rp ap fsd root)

/-! ## lib/puml.py — diagram binder

`PumlNode.fs_ids` is a mutable Python list created once per node and
aliased both by `PumlData.fs_groups` and by the local `fs_ids` variable
of `_get_desc_fs_ids`.  The embedding keeps the tree immutable and moves
the lists into a heap (`Store`) keyed by the node's diagram-local id
(unique, handed out by a counter), so the in-place `extend` calls are
visible through every alias exactly as in Python. -/

/-- `PumlNode` minus its `fs_ids` attribute, which lives in the `Store`. -/
inductive PumlNode where
  | mk (id : Nat) (ntype : String) (name : String) (varName : Option String)
      (stereotype : Option String) (children : List PumlNode)

def PumlNode.id : PumlNode → Nat
  | .mk i _ _ _ _ _ => i

def PumlNode.name : PumlNode → String
  | .mk _ _ n _ _ _ => n

def PumlNode.varName : PumlNode → Option String
  | .mk _ _ _ v _ _ => v

def PumlNode.children : PumlNode → List PumlNode
  | .mk _ _ _ _ _ cs => cs

/-- The heap of `fs_ids` lists: node id → current list contents.  A
missing entry is the attribute still holding `None`. -/
abbrev Store := List (Nat × List Nat)

def storeGet : Store → Nat → Option (List Nat)
  | [], _ => none
  | (j, v) :: rest, i => if j = i then some v else storeGet rest i

def storeSet : Store → Nat → List Nat → Store
  | [], i, v => [(i, v)]
  | (j, w) :: rest, i, v =>
    if j = i then (i, v) :: rest else (j, w) :: storeSet rest i v

/-- `PumlRel`: a relationship after arrow-direction normalization. -/
structure PumlRel where
  src : String
  dst : String
deriving DecidableEq

/-- `PumlRef`: Python stores the `PumlNode` object; the embedding keeps
its diagram id. -/
structure PumlRef where
  fs_id : Nat
  puml_node : Nat
deriving DecidableEq

/-- `PumlRule`: one expanded allowed file pair. -/
structure PumlRule where
  src : PumlRef
  dst : PumlRef
deriving DecidableEq

/-- `PumlParser.file_extensions` — note `.cxx` is absent here, unlike
`FSScanner.file_extensions`. -/
def pumlFileExtensions : List String := [".c", ".cc", ".cpp", ".h", ".hpp"]

/-- Lines 171–175 of `lib/puml.py`: the resolution base directory.
`if parent and parent.fs_ids:` falls through to the global base
directory when there is no parent or its `fs_ids` is `None`/empty;
otherwise `get_full_path_by_id(*parent.fs_ids)` unpacks the list, which
is a `TypeError` for more than one element, and the entry's `is_dir`
flag is never consulted. -/
def getParentDirFor (fsd : FSData) (baseDir : String) :
    Option (List Nat) → Except String String
  | some (x :: rest) =>
    match rest with
    | [] => fsd.getFullPathById x
    | _ => .error "TypeError"
  | some [] => .ok baseDir
  | none => .ok baseDir

/-- `PumlParser._get_node_fs_ids`: join the base directory with the node
name, try the bare candidate and each extension of
`pumlFileExtensions`, and collect the ids of the `file_index` hits; no
hit at all is fatal. -/
def getNodeFsIds (ap : String → String) (fsd : FSData) (baseDir : String)
    (name : String) (parentFs : Option (List Nat)) : Except String (List Nat) := do
  let parentDir ← getParentDirFor fsd baseDir parentFs
  let nodePath := pjoin parentDir name
  let fsIds := ("" :: pumlFileExtensions).filterMap
    (fun ext => (dictGet fsd.file_index (ap (nodePath ++ ext))).map FSEntry.id)
  if fsIds.isEmpty then .error "Could not get filesystem id for PlantUML Node"
  else .ok fsIds

/-- The mutable parts of `PumlData` touched by the binder: the
variable index (variable → node id), the recorded groups (Python keeps
references to the nodes' `fs_ids` lists; the embedding keeps the owning
node ids) and the `fs_ids` heap. -/
structure BindState where
  var_index : List (String × Nat) := []
  fs_groups : List Nat := []
  store : Store := []

/-- `PumlParser._handle_node`: nodes without a variable are skipped;
otherwise the node is indexed, its `fs_ids` are resolved (the parent's
`fs_ids` are read through the heap) and groups of more than one id are
recorded. -/
def handleNode (ap : String → String) (fsd : FSData) (baseDir : String)
    (bs : BindState) (n : PumlNode) (parentId : Option Nat) :
    Except String BindState :=
  match n.varName with
  | none => .ok bs
  | some v => do
    let varIdx := dictSet bs.var_index v n.id
    let parentFs := parentId.bind (storeGet bs.store)
    let ids ← getNodeFsIds ap fsd baseDir n.name parentFs
    let store := storeSet bs.store n.id ids
    let groups := if ids.length > 1 then bs.fs_groups ++ [n.id] else bs.fs_groups
    .ok { var_index := varIdx, fs_groups := groups, store := store }

mutual

/-- `PumlParser._process_tree`: handle the node, then its children in
order, each child seeing the current node as parent (whether or not it
was bound). -/
def processTree (ap : String → String) (fsd : FSData) (baseDir : String)
    (bs : BindState) : PumlNode → Option Nat → Except String BindState
  | .mk i t nm v ster cs, parentId =>
    match handleNode ap fsd baseDir bs (.mk i t nm v ster cs) parentId with
    | .error e => .error e
    | .ok bs1 => processTreeList ap fsd baseDir bs1 cs (some i)

def processTreeList (ap : String → String) (fsd : FSData) (baseDir : String)
    (bs : BindState) : List PumlNode → Option Nat → Except String BindState
  | [], _ => .ok bs
  | c :: cs, parentId =>
    match processTree ap fsd baseDir bs c parentId with
    | .error e => .error e
    | .ok bs1 => processTreeList ap fsd baseDir bs1 cs parentId

end

mutual

/-- `PumlParser._get_desc_fs_ids`: `fs_ids = node.fs_ids` aliases the
node's own list, which is then extended in place with, for every child,
first the child's current `fs_ids` and then the result of the recursive
call (the child's list after its own extension).  A `None` list anywhere
raises (`AttributeError`/`TypeError`), which aborts the run. -/
def getDescFsIds (st : Store) : PumlNode → Except String (Store × List Nat)
  | .mk i _ _ _ _ cs =>
    match storeGet st i with
    | none => .error "TypeError"
    | some ids =>
      match getDescFsIdsList st cs ids with
      | .error e => .error e
      | .ok (st1, acc) => .ok (storeSet st1 i acc, acc)

def getDescFsIdsList (st : Store) : List PumlNode → List Nat →
    Except String (Store × List Nat)
  | [], acc => .ok (st, acc)
  | c :: rest, acc =>
    match storeGet st c.id with
    | none => .error "TypeError"
    | some pre =>
      match getDescFsIds st c with
      | .error e => .error e
      | .ok (st1, ret) => getDescFsIdsList st1 rest (acc ++ pre ++ ret)

end

mutual

/-- Find a diagram node by its id (Python's `var_index` stores the node
object; ids are unique, so the id is a faithful reference). -/
def findNode : PumlNode → Nat → Option PumlNode
  | .mk i t nm v ster cs, tgt =>
    if i = tgt then some (.mk i t nm v ster cs) else findNodeList cs tgt

def findNodeList : List PumlNode → Nat → Option PumlNode
  | [], _ => none
  | c :: cs, tgt =>
    match findNode c tgt with
    | some r => some r
    | none => findNodeList cs tgt

end

/-- `PumlParser._create_rules`: for each relationship, look both
variables up (a missing one is `KeyError`, fatal), compute both
descendant closures (mutating the heap), and append the Cartesian
product of the two closures to the rules. -/
def createRules (tree : PumlNode) (varIdx : List (String × Nat)) :
    Store → List PumlRule → List PumlRel → Except String (Store × List PumlRule)
  | st, rules, [] => .ok (st, rules)
  | st, rules, rel :: rest =>
    match dictGet varIdx rel.src, dictGet varIdx rel.dst with
    | some srcId, some dstId =>
      match findNode tree srcId, findNode tree dstId with
      | some nodeSrc, some nodeDst =>
        match getDescFsIds st nodeSrc with
        | .error e => .error e
        | .ok (st1, fsSrc) =>
          match getDescFsIds st1 nodeDst with
          | .error e => .error e
          | .ok (st2, fsDst) =>
            let newRules := fsSrc.flatMap (fun x => fsDst.map (fun y =>
              PumlRule.mk (PumlRef.mk x srcId) (PumlRef.mk y dstId)))
            createRules tree varIdx st2 (rules ++ newRules) rest
      | _, _ => .error "node not found"
    | _, _ => .error "KeyError"

/-! ## lib/arch.py — matrix conformance engine -/

/-- `itertools.combinations(group, 2)` in iteration order. -/
def combinations2 : List Nat → List (Nat × Nat)
  | [] => []
  | x :: rest => rest.map (fun y => (x, y)) ++ combinations2 rest

/-- Lines 37–46 of `lib/arch.py`, one rule: zero the Cartesian product
of the filesystem descendant closures of the rule's two endpoints. -/
def ruleStep (fsd : FSData) (m : Mat) (rule : PumlRule) : Except String Mat := do
  let fsSrcIds ← fsd.getDescIds rule.src.fs_id
  let fsDstIds ← fsd.getDescIds rule.dst.fs_id
  pure (fsSrcIds.foldl (fun m s => fsDstIds.foldl (fun m d => matSet m s d 0) m) m)

/-- Lines 48–52 of `lib/arch.py`, one group: zero both directions of
every `itertools.combinations` pair. -/
def groupStep (m : Mat) (g : List Nat) : Mat :=
  (combinations2 g).foldl (fun m p => matSet (matSet m p.1 p.2 0) p.2 p.1 0) m

/-- Lines 35–52 of `lib/arch.py`: the rule matrix starts at all ones;
each rule zeroes its descendant-expanded pairs, then each group zeroes
both directions of every member pair. -/
def buildRuleMatrix (fsd : FSData) (rules : List PumlRule)
    (groups : List (List Nat)) : Except String Mat := do
  let m1 ← rules.foldlM (ruleStep fsd) (fun _ _ => 1)
  pure (groups.foldl groupStep m1)

/-- `dep_dict.setdefault(key, []).append(code_dep)`. -/
def dictAppend (d : List ((Nat × Nat) × List CodeDep)) (k : Nat × Nat)
    (v : CodeDep) : List ((Nat × Nat) × List CodeDep) :=
  match d with
  | [] => [(k, [v])]
  | (k2, vs) :: rest =>
    if k2 = k then (k2, vs ++ [v]) :: rest else (k2, vs) :: dictAppend rest k v

/-- Lines 60–67 of `lib/arch.py`, one dependency: append it to its
`(src, dst)` bucket and bump the count; a `None` endpoint id aborts the
run (`exit(1)`). -/
def obsStep (acc : List ((Nat × Nat) × List CodeDep) × Mat) (dep : CodeDep) :
    Except String (List ((Nat × Nat) × List CodeDep) × Mat) :=
  match dep.src.fs_id, dep.dst.fs_id with
  | some s, some d =>
    .ok (dictAppend acc.1 (s, d) dep, matSet acc.2 s d (acc.2 s d + 1))
  | _, _ => .error "code dependency has Filesystem ID None"

/-- Lines 58–67 of `lib/arch.py`: group the dependencies by fs-id pair
and count them. -/
def buildObserved (deps : List CodeDep) :
    Except String (List ((Nat × Nat) × List CodeDep) × Mat) :=
  deps.foldlM obsStep ([], fun _ _ => 0)

/-- `violations_matrix = rule_matrix * dep_matrix` (element-wise). -/
def violationsMatrix (rm dm : Mat) : Mat := fun i j => rm i j * dm i j

/-- `numpy.transpose(numpy.nonzero(m))` over an `n × n` matrix:
the nonzero index pairs in row-major order. -/
def nonzeroPairs (n : Nat) (m : Mat) : List (Nat × Nat) :=
  (List.range n).flatMap (fun i =>
    (List.range n).filterMap (fun j => if 0 < m i j then some (i, j) else none))

/-- One step of lines 80–81 of `lib/arch.py`:
`dep_dict[tuple(violation)]` (a missing key would be `KeyError`). -/
def cdvStep (dd : List ((Nat × Nat) × List CodeDep)) (acc : List CodeDep)
    (p : Nat × Nat) : Except String (List CodeDep) :=
  match dictGet dd p with
  | some l => .ok (acc ++ l)
  | none => .error "KeyError"

/-- Lines 79–81 of `lib/arch.py`: expand every violating pair back to
its grouped dependencies. -/
def codeDepViolations (dd : List ((Nat × Nat) × List CodeDep))
    (pairs : List (Nat × Nat)) : Except String (List CodeDep) :=
  pairs.foldlM (cdvStep dd) []

/-- Lines 87–89 of `lib/arch.py`: one CSV line per violating dependency,
`f"{dep.src.code_node.file},{dep.dst.code_node.file}"`.  A `None`
`code_node` raises `AttributeError` and aborts the run. -/
def violationsReport (deps : List CodeDep) : Except String (List String) :=
  deps.foldlM (fun lines dep =>
    match dep.src.code_node, dep.dst.code_node with
    | some ns, some nd => .ok (lines ++ [ns.file ++ "," ++ nd.file])
    | _, _ => .error "AttributeError") []

/-! ## Auxiliary observers used by the theorems -/

mutual

/-- Every raw file name a cursor tree exposes to the parser: the
cursor's own location file and its referenced cursor's location file,
over the whole tree (`pyStr` renders a missing file the way `str(None)`
does). -/
def cursorFileNames : Cursor → List String
  | .mk info cs =>
    (pyStr info.file :: (info.referenced.map (fun r => pyStr r.file)).toList)
      ++ cursorFileNamesList cs

def cursorFileNamesList : List Cursor → List String
  | [] => []
  | c :: cs => cursorFileNames c ++ cursorFileNamesList cs

end

mutual

/-- The diagram-local ids of a node and all its descendants. -/
def nodeIds : PumlNode → List Nat
  | .mk i _ _ _ _ cs => i :: nodeIdsList cs

def nodeIdsList : List PumlNode → List Nat
  | [] => []
  | c :: cs => nodeIds c ++ nodeIdsList cs

end

mutual

/-- The filesystem ids bound (in heap `st`) to a node or any of its
descendants — the descendant fs-id closure the spec talks about, read
before any mutation. -/
def subtreeFsIds (st : Store) : PumlNode → List Nat
  | .mk i _ _ _ _ cs => (storeGet st i).getD [] ++ subtreeFsIdsList st cs

def subtreeFsIdsList (st : Store) : List PumlNode → List Nat
  | [] => []
  | c :: cs => subtreeFsIds st c ++ subtreeFsIdsList st cs

end

/-- The endpoint invariant of an emitted dependency: both filesystem
ids are non-null, and an edge that carries a destination `CodeNode`
(a non-inclusion reference edge) has distinct endpoint ids. -/
def depEndpointsOk (dep : CodeDep) : Prop :=
  dep.src.fs_id ≠ none ∧ dep.dst.fs_id ≠ none ∧
    (dep.dst.code_node ≠ none → dep.src.fs_id ≠ dep.dst.fs_id)

/-! ## Concrete instances used by witnesses and counterexamples -/

/-- A scanned header file with fs id 1. -/
def e1 : FSEntry := .mk 1 "a.h" "/t/a.h" false []

/-- An index holding just `e1`. -/
def fsd1 : FSData := { index := [(1, e1)], file_index := [("/t/a.h", e1)], root := none }

/-- An inclusion-directive cursor in `/t/a.h` whose resolved include
file is `/t/a.h` itself — a self-include. -/
def inc1 : CurInfo :=
  { hash := 7, kindVal := 503, kindStr := "CursorKind.INCLUSION_DIRECTIVE",
    file := some "/t/a.h", inSysHeader := false,
    startLine := 1, startCol := 1, endLine := 1, endCol := 10,
    referenced := none, includedFile := some "/t/a.h" }

/-- The dependency the walker emits for the self-include: both ends
resolve to fs id 1 and the destination `CodeNode` is absent. -/
def incDep : CodeDep :=
  { src := { fs_id := some 1, code_node := some (mkCodeNode (fun s => s) inc1.toCurBase) }
    dst := { fs_id := some 1, code_node := none } }

/-- An inert cursor (kind 0 never passes the kind filter). -/
def curNull : Cursor :=
  .mk { hash := 0, kindVal := 0, kindStr := "CursorKind.UNEXPOSED_DECL",
        file := some "/t/a.h", inSysHeader := false,
        startLine := 1, startCol := 1, endLine := 1, endCol := 1,
        referenced := none, includedFile := none } []

/-- A scanned `.cxx` file with fs id 2. -/
def e2 : FSEntry := .mk 2 "n.cxx" "/b/n.cxx" false []

/-- An index holding just `e2`. -/
def fsd2 : FSData := { index := [(2, e2)], file_index := [("/b/n.cxx", e2)], root := none }

/-- A scanned header file with fs id 3, used as a bound non-directory
parent. -/
def e3 : FSEntry := .mk 3 "x.h" "/b/x.h" false []

/-- An index holding just `e3`. -/
def fsd3 : FSData := { index := [(3, e3)], file_index := [("/b/x.h", e3)], root := none }

/-- A header matching node name `n` under the global base directory. -/
def e10 : FSEntry := .mk 10 "n.h" "/base/n.h" false []

/-- An index holding the non-directory parent `e3` and the
global-base candidate `e10`. -/
def fsd6 : FSData :=
  { index := [(3, e3), (10, e10)]
    file_index := [("/b/x.h", e3), ("/base/n.h", e10)]
    root := none }

/-- A scanned source file with fs id 4, a `.cpp` binder hit. -/
def e4 : FSEntry := .mk 4 "n.cpp" "/b/n.cpp" false []

/-- An index holding just `e4`. -/
def fsd4 : FSData := { index := [(4, e4)], file_index := [("/b/n.cpp", e4)], root := none }

/-- A scan environment in which `/sym` is a symbolic link to `/real`:
`realpath` resolves it, `abspath` does not. -/
def env1 : ScanEnv :=
  { abspath := fun s => s, realpath := fun s => if s = "/sym" then "/real" else s }

/-- A function declaration in `/t/a.h`, target of a cross-file
reference. -/
def ref1target : CurBase :=
  { hash := 9, kindVal := 8, kindStr := "CursorKind.FUNCTION_DECL",
    file := some "/t/a.h", inSysHeader := false,
    startLine := 2, startCol := 1, endLine := 2, endCol := 12 }

/-- A reference cursor in `/t/b.cpp` whose referenced cursor lives in
`/t/a.h` (kind 101 = declaration-reference expression). -/
def ref1 : CurInfo :=
  { hash := 8, kindVal := 101, kindStr := "CursorKind.DECL_REF_EXPR",
    file := some "/t/b.cpp", inSysHeader := false,
    startLine := 3, startCol := 5, endLine := 3, endCol := 9,
    referenced := some ref1target
    includedFile := none }

/-- The dependency the walker emits for `ref1`: source `/t/b.cpp`
(fs id 5), destination `/t/a.h` (fs id 1), both `CodeNode`s present. -/
def refDep : CodeDep :=
  { src := { fs_id := some 5, code_node := some (mkCodeNode (fun s => s) ref1.toCurBase) }
    dst := { fs_id := some 1, code_node := some (mkCodeNode (fun s => s) ref1target) } }

/-- A scanned source file with fs id 5. -/
def e5 : FSEntry := .mk 5 "b.cpp" "/t/b.cpp" false []

/-- An index holding the header `e1` and the source `e5`. -/
def fsd5 : FSData :=
  { index := [(1, e1), (5, e5)]
    file_index := [("/t/a.h", e1), ("/t/b.cpp", e5)]
    root := none }

/-- A three-level diagram: grandparent (diagram id 0, bound to fs id
10), child (id 1, bound to 11), grandchild (id 2, bound to 12). -/
def puml2 : PumlNode := .mk 2 "component" "g" (some "g") none []

def puml1 : PumlNode := .mk 1 "component" "c" (some "c") none [puml2]

def puml0 : PumlNode := .mk 0 "package" "p" (some "p") none [puml1]

/-- The `fs_ids` heap right after binding the three nodes. -/
def st0 : Store := [(0, [10]), (1, [11]), (2, [12])]

/-! ## Helper lemmas -/

theorem dictGet_mem {α β : Type} [DecidableEq α] {l : List (α × β)} {k : α} {v : β}
    (h : dictGet l k = some v) : (k, v) ∈ l := by
  induction l with
  | nil => simp [dictGet] at h
  | cons p rest ih =>
    obtain ⟨k2, w⟩ := p
    rw [dictGet] at h
    cases hr : dictGet rest k with
    | some v2 =>
      rw [hr] at h
      cases h
      exact List.mem_cons_of_mem _ (ih hr)
    | none =>
      rw [hr] at h
      by_cases hk : k = k2
      · simp only [hk, if_pos rfl] at h
        cases h
        subst hk
        exact List.mem_cons_self _ _
      · simp [hk] at h

theorem matSet_cases (m : Mat) (i j v a b : Nat) :
    matSet m i j v a b = v ∨ matSet m i j v a b = m a b := by
  unfold matSet
  split <;> simp

theorem foldl_entry_cases {α : Type} (f : Mat → α → Mat) (i j : Nat)
    (hf : ∀ (m : Mat) (a : α), f m a i j = 0 ∨ f m a i j = m i j) :
    ∀ (l : List α) (m : Mat), (l.foldl f m) i j = 0 ∨ (l.foldl f m) i j = m i j := by
  intro l
  induction l with
  | nil => intro m; right; rfl
  | cons a t ih =>
    intro m
    rw [List.foldl_cons]
    rcases ih (f m a) with h | h
    · left; exact h
    · rw [h]
      exact hf m a

theorem foldl_preserve_zero {α : Type} (f : Mat → α → Mat) (i j : Nat)
    (hf : ∀ (m : Mat) (a : α), f m a i j = 0 ∨ f m a i j = m i j)
    (l : List α) (m : Mat) (h : m i j = 0) : (l.foldl f m) i j = 0 := by
  rcases foldl_entry_cases f i j hf l m with h2 | h2 <;> simp [h2, h]

theorem foldl_mem_zero {α : Type} (f : Mat → α → Mat) (i j : Nat)
    (hf : ∀ (m : Mat) (a : α), f m a i j = 0 ∨ f m a i j = m i j)
    {l : List α} {a : α} (ha : a ∈ l) (hset : ∀ m : Mat, f m a i j = 0) :
    ∀ m : Mat, (l.foldl f m) i j = 0 := by
  induction l with
  | nil => cases ha
  | cons b t ih =>
    intro m
    rw [List.foldl_cons]
    rcases List.mem_cons.mp ha with heq | hmem
    · subst heq
      exact foldl_preserve_zero f i j hf t (f m a) (hset m)
    · exact ih hmem (f m b)

theorem foldlM_except_ind {α β : Type} (P : β → Prop) (f : β → α → Except String β) :
    ∀ (l : List α) (b r : β), P b →
      (∀ (b' : β) (a : α) (r' : β), a ∈ l → P b' → f b' a = .ok r' → P r') →
      List.foldlM f b l = .ok r → P r := by
  intro l
  induction l with
  | nil =>
    intro b r hb _ h
    simp only [List.foldlM, pure] at h
    cases h
    exact hb
  | cons a t ih =>
    intro b r hb hstep h
    simp only [List.foldlM] at h
    cases hfa : f b a with
    | error e =>
      rw [hfa] at h
      simp [Bind.bind, Except.bind] at h
    | ok b2 =>
      rw [hfa] at h
      simp only [Bind.bind, Except.bind] at h
      exact ih b2 r (hstep b a b2 (List.mem_cons_self a t) hb hfa)
        (fun b' a' r' ha' => hstep b' a' r' (List.mem_cons_of_mem _ ha')) h

theorem printDiagnostics_eq_any :
    ∀ (diags : List Nat) (b : Bool),
      diags.foldl (fun fail sev => if sev > 3 then true else fail) b =
        (b || diags.any (fun sev => decide (3 < sev)))
  | [], b => by simp [List.foldl]
  | sev :: t, b => by
    rw [List.foldl_cons, printDiagnostics_eq_any t]
    by_cases h : 3 < sev <;> simp [h]

/-! ## Claim C4 -/

/-- Claim C4 (counterexample): a diagnostic of severity 3 (the
front-end's error level) lies strictly above the warning level 2, yet
`TUParser.parse` does not abort — `_print_diagnostics` only trips on
severities above 3. -/
theorem c4_counterexample :
    warningSeverity < 3 ∧
      TUParser.parse (fun s => s) (fun s => s) fsd1 [3] curNull = .ok [] := by
  exact ⟨by decide, by rfl⟩

/-- Claim C4 (amended): parsing a translation unit aborts if and only if
some front-end diagnostic has severity strictly above 3 (the error
level, i.e. only fatal diagnostics); any run of diagnostics at severity
3 or below lets the walk proceed. -/
theorem c4_parse_aborts_iff (rp ap : String → String) (fsd : FSData)
    (diags : List Nat) (c : Cursor) :
    (∃ e, TUParser.parse rp ap fsd diags c = .error e) ↔ ∃ d ∈ diags, 3 < d := by
  unfold TUParser.parse printDiagnostics
  rw [printDiagnostics_eq_any diags false]
  by_cases h : diags.any (fun sev => decide (3 < sev))
  · rw [h]
    simp only [Bool.false_or, if_true]
    constructor
    · intro _
      simpa using List.any_eq_true.mp h
    · intro _
      exact ⟨"Check Diagnostics!", rfl⟩
  · rw [Bool.eq_false_iff.mpr h]
    simp only [Bool.false_or, if_false]
    constructor
    · rintro ⟨e, he⟩
      cases he
    · intro ⟨d, hd, h3⟩
      exact absurd (List.any_eq_true.mpr ⟨d, hd, by simpa using h3⟩) h

/-! ## Claim C5 -/

/-- Claim C5 (counterexample): `n.cxx` carries a recognized C/C++
extension and is present in the filesystem index, but the binder's own
extension list stops at `.hpp` — resolving node name `n` fails instead
of binding fs id 2. -/
theorem c5_counterexample :
    dictGet fsd2.file_index "/b/n.cxx" = some e2 ∧
      strEndsWith (strToLower "n.cxx") ".cxx" = true ∧
      getNodeFsIds (fun s => s) fsd2 "/b" "n" none =
        .error "Could not get filesystem id for PlantUML Node" := by
  exact ⟨by rfl, by rfl, by rfl⟩

/-- Claim C5 (amended): the binder forms `candidate = base / node.name`
and tries the candidate itself plus each extension in `.c .cc .cpp .h
.hpp` (not `.cxx`); every tried candidate whose canonical absolute path
hits the file index contributes its id to the binding. -/
theorem c5_binder_extension_hits (ap : String → String) (fsd : FSData)
    (baseDir name : String) (parentFs : Option (List Nat)) (b ext : String)
    (e : FSEntry)
    (hb : getParentDirFor fsd baseDir parentFs = .ok b)
    (hext : ext ∈ "" :: pumlFileExtensions)
    (hhit : dictGet fsd.file_index (ap (pjoin b name ++ ext)) = some e) :
    ∃ ids, getNodeFsIds ap fsd baseDir name parentFs = .ok ids ∧ e.id ∈ ids := by
  unfold getNodeFsIds
  rw [hb]
  simp only [Bind.bind, Except.bind]
  have hmem : e.id ∈ ("" :: pumlFileExtensions).filterMap
      (fun ext => (dictGet fsd.file_index (ap (pjoin b name ++ ext))).map FSEntry.id) := by
    exact List.mem_filterMap.mpr ⟨ext, hext, by rw [hhit]; rfl⟩
  cases hids : ("" :: pumlFileExtensions).filterMap
      (fun ext => (dictGet fsd.file_index (ap (pjoin b name ++ ext))).map FSEntry.id) with
  | nil => rw [hids] at hmem; cases hmem
  | cons x xs =>
    rw [hids] at hmem
    exact ⟨x :: xs, by simp [List.isEmpty], hmem⟩

/-- Claim C5 (witness): a `.cpp` file is found through its extension. -/
theorem c5_binder_extension_hits_witness :
    ∃ ids, getNodeFsIds (fun s => s) fsd4 "/b" "n" none = .ok ids ∧ e4.id ∈ ids :=
  c5_binder_extension_hits (fun s => s) fsd4 "/b" "n" none "/b" ".cpp" e4
    (by rfl) (by decide) (by rfl)

/-! ## Claim C6 -/

/-- Claim C6 (counterexample): the parent is bound to exactly one id
that is a plain file, and the claimed fallback candidate
`/base/n.h` exists in the index, yet resolution uses the file's own
path as base and fails; a parent bound to two ids raises a `TypeError`
instead of falling back to the global base directory. -/
theorem c6_counterexample :
    dictGet fsd6.index 3 = some e3 ∧ e3.isDir = false ∧
      dictGet fsd6.file_index "/base/n.h" = some e10 ∧
      getParentDirFor fsd6 "/base" (some [3, 10]) = .error "TypeError" ∧
      getNodeFsIds (fun s => s) fsd6 "/base" "n" (some [3]) =
        .error "Could not get filesystem id for PlantUML Node" := by
  exact ⟨by rfl, by rfl, by rfl, by rfl, by rfl⟩

/-- Claim C6 (amended): the resolution base directory is the full path
of the parent's single bound id whenever the parent is bound to exactly
one indexed id — directory or not, the `is_dir` flag is never consulted;
a parent bound to two or more ids raises a `TypeError` (aborting the
run); only a missing, unbound or empty-bound parent falls back to the
global base directory. -/
theorem c6_base_selection (fsd : FSData) (baseDir : String) :
    (getParentDirFor fsd baseDir none = .ok baseDir) ∧
      (getParentDirFor fsd baseDir (some []) = .ok baseDir) ∧
      (∀ x e, dictGet fsd.index x = some e →
        getParentDirFor fsd baseDir (some [x]) = .ok e.full_path) ∧
      (∀ x y rest, getParentDirFor fsd baseDir (some (x :: y :: rest)) =
        .error "TypeError") := by
  refine ⟨rfl, rfl, ?_, fun x y rest => rfl⟩
  intro x e h
  have h1 : getParentDirFor fsd baseDir (some [x]) = fsd.getFullPathById x := rfl
  rw [h1]
  unfold FSData.getFullPathById
  rw [h]

/-- Claim C6 (witness): the single-id case applied to the concrete
non-directory parent `e3`. -/
theorem c6_base_selection_witness :
    dictGet fsd3.index 3 = some e3 ∧
      getParentDirFor fsd3 "/base" (some [3]) = .ok e3.full_path :=
  ⟨by rfl, (c6_base_selection fsd3 "/base").2.2.1 3 e3 (by rfl)⟩

/-! ## Claim C8 -/

mutual

theorem walkEnt_full_paths (env : ScanEnv) (curDir : String) :
    ∀ (e : DirEnt) (ctr : Nat),
      ((walkEnt env curDir e ctr).2.1).map (fun p => p.2.full_path) =
        (walkPathsSpec curDir [e]).map env.realpath
  | .mk name isDir entries, ctr => by
    cases isDir with
    | true =>
      by_cases hf : entryFilter name (pjoin curDir name) true
      · simp only [walkEnt, walkPathsSpec, hf, if_true, eq_self_iff_true,
          List.map_cons, List.map_append, List.append_nil, List.map_nil]
        rw [walkEnts_full_paths env (pjoin curDir name) entries (ctr + 1)]
        rfl
      · simp only [walkEnt, walkPathsSpec, hf, if_false, Bool.false_eq_true,
          List.map_nil, List.append_nil]
    | false =>
      by_cases hf : entryFilter name (pjoin curDir name) false
      · simp only [walkEnt, walkPathsSpec, hf, if_true, if_false, Bool.false_eq_true,
          List.map_cons, List.map_append, List.append_nil, List.map_nil]
        rfl
      · simp only [walkEnt, walkPathsSpec, hf, if_false, Bool.false_eq_true,
          List.map_nil, List.append_nil]

theorem walkEnts_full_paths (env : ScanEnv) (curDir : String) :
    ∀ (es : List DirEnt) (ctr : Nat),
      ((walkEnts env curDir es ctr).2.1).map (fun p => p.2.full_path) =
        (walkPathsSpec curDir es).map env.realpath
  | [], ctr => by rw [walkEnts, walkPathsSpec]; rfl
  | .mk name isDir entries :: es, ctr => by
    rw [walkEnts]
    simp only [List.map_append]
    rw [walkEnt_full_paths env curDir (.mk name isDir entries) ctr,
      walkEnts_full_paths env curDir es
        (walkEnt env curDir (.mk name isDir entries) ctr).2.2.2]
    rw [walkPathsSpec, walkPathsSpec, walkPathsSpec]
    simp [List.map_append]

end

/-- Claim C8 (counterexample): scanning the base directory `/sym`, a
symbolic link to `/real`, stores `/sym` as the root's `full_path` —
`os.path.abspath` is applied to the root, so its stored path is not the
symlink-resolved canonical path. -/
theorem c8_counterexample :
    (FSScanner.scan env1 "/sym" []).index.map (fun p => p.2.full_path) = ["/sym"] ∧
      env1.realpath "/sym" = "/real" ∧ ("/sym" : String) ≠ "/real" := by
  exact ⟨by rfl, by rfl, by decide⟩

/-- Claim C8 (amended): every entry created by the tree walk stores
`os.path.realpath` of its scan path, but the root stores
`os.path.abspath(base_dir)` — absolute, yet with symbolic links left
unresolved. -/
theorem c8_scan_full_paths (env : ScanEnv) (baseDir : String) (tree : List DirEnt) :
    (FSScanner.scan env baseDir tree).index.map (fun p => p.2.full_path) =
      env.abspath baseDir :: (walkPathsSpec baseDir tree).map env.realpath := by
  unfold FSScanner.scan
  simp only [List.map_cons]
  rw [walkEnts_full_paths env baseDir tree 1]
  rfl

/-! ## Rule-matrix lemmas (claims C1, C7, C10) -/

theorem matSet_ne {m : Mat} {i j v a b : Nat} (h : ¬(a = i ∧ b = j)) :
    matSet m i j v a b = m a b := by
  simp [matSet, h]

theorem comboStep_cases (m : Mat) (p : Nat × Nat) (i j : Nat) :
    matSet (matSet m p.1 p.2 0) p.2 p.1 0 i j = 0 ∨
      matSet (matSet m p.1 p.2 0) p.2 p.1 0 i j = m i j := by
  rcases matSet_cases (matSet m p.1 p.2 0) p.2 p.1 0 i j with h | h
  · left; exact h
  · rcases matSet_cases m p.1 p.2 0 i j with h2 | h2
    · left; rw [h, h2]
    · right; rw [h, h2]

theorem comboStep_zero (p : Nat × Nat) (a b : Nat)
    (h : (a = p.1 ∧ b = p.2) ∨ (a = p.2 ∧ b = p.1)) (m : Mat) :
    matSet (matSet m p.1 p.2 0) p.2 p.1 0 a b = 0 := by
  by_cases h1 : a = p.2 ∧ b = p.1
  · rw [matSet, if_pos h1]
  · rw [matSet_ne h1]
    rcases h with h2 | h2
    · rw [matSet, if_pos h2]
    · exact absurd h2 h1

theorem groupStep_cases (m : Mat) (g : List Nat) (i j : Nat) :
    groupStep m g i j = 0 ∨ groupStep m g i j = m i j :=
  foldl_entry_cases _ i j (fun m p => comboStep_cases m p i j) (combinations2 g) m

theorem mem_combinations2 {x y : Nat} :
    ∀ {l : List Nat}, x ∈ l → y ∈ l → x ≠ y →
      (x, y) ∈ combinations2 l ∨ (y, x) ∈ combinations2 l := by
  intro l
  induction l with
  | nil => intro hx; cases hx
  | cons a t ih =>
    intro hx hy hxy
    rw [combinations2]
    rcases List.mem_cons.mp hx with rfl | hx2
    · have hyt : y ∈ t := by
        rcases List.mem_cons.mp hy with rfl | h2
        · exact absurd rfl hxy
        · exact h2
      left
      exact List.mem_append_left _ (List.mem_map.mpr ⟨y, hyt, rfl⟩)
    · rcases List.mem_cons.mp hy with rfl | hyt
      · right
        exact List.mem_append_left _ (List.mem_map.mpr ⟨x, hx2, rfl⟩)
      · rcases ih hx2 hyt hxy with h2 | h2
        · left; exact List.mem_append_right _ h2
        · right; exact List.mem_append_right _ h2

theorem groupStep_pair_zero {g : List Nat} {x y : Nat}
    (hx : x ∈ g) (hy : y ∈ g) (hxy : x ≠ y) (m : Mat) :
    groupStep m g x y = 0 ∧ groupStep m g y x = 0 := by
  rcases mem_combinations2 hx hy hxy with hp | hp
  · constructor
    · exact foldl_mem_zero _ x y (fun m p => comboStep_cases m p x y) hp
        (fun m => comboStep_zero (x, y) x y (Or.inl ⟨rfl, rfl⟩) m) m
    · exact foldl_mem_zero _ y x (fun m p => comboStep_cases m p y x) hp
        (fun m => comboStep_zero (x, y) y x (Or.inr ⟨rfl, rfl⟩) m) m
  · constructor
    · exact foldl_mem_zero _ x y (fun m p => comboStep_cases m p x y) hp
        (fun m => comboStep_zero (y, x) x y (Or.inr ⟨rfl, rfl⟩) m) m
    · exact foldl_mem_zero _ y x (fun m p => comboStep_cases m p y x) hp
        (fun m => comboStep_zero (y, x) y x (Or.inl ⟨rfl, rfl⟩) m) m

theorem buildRuleMatrix_elim {fsd : FSData} {rules : List PumlRule}
    {groups : List (List Nat)} {rm : Mat}
    (h : buildRuleMatrix fsd rules groups = .ok rm) :
    ∃ m1, List.foldlM (ruleStep fsd) (fun _ _ => 1) rules = .ok m1 ∧
      rm = groups.foldl groupStep m1 := by
  unfold buildRuleMatrix at h
  cases hm : List.foldlM (ruleStep fsd) (fun _ _ => 1) rules with
  | error e => rw [hm] at h; simp [Bind.bind, Except.bind] at h
  | ok m1 =>
    rw [hm] at h
    simp only [Bind.bind, Except.bind, pure, Except.pure, Except.ok.injEq] at h
    exact ⟨m1, rfl, h.symm⟩

theorem ruleStep_ok_cases {fsd : FSData} {m : Mat} {rule : PumlRule} {m2 : Mat}
    (h : ruleStep fsd m rule = .ok m2) (i j : Nat) :
    m2 i j = 0 ∨ m2 i j = m i j := by
  unfold ruleStep at h
  cases h1 : fsd.getDescIds rule.src.fs_id with
  | error e => rw [h1] at h; simp [Bind.bind, Except.bind] at h
  | ok src =>
    rw [h1] at h
    cases h2 : fsd.getDescIds rule.dst.fs_id with
    | error e => rw [h2] at h; simp [Bind.bind, Except.bind] at h
    | ok dst =>
      rw [h2] at h
      simp only [Bind.bind, Except.bind, pure, Except.pure, Except.ok.injEq] at h
      subst h
      refine foldl_entry_cases _ i j (fun m s => ?_) src m
      exact foldl_entry_cases _ i j (fun m d => by
        rcases matSet_cases m s d 0 i j with h3 | h3
        · left; exact h3
        · right; exact h3) dst m

theorem buildRuleMatrix_zero_or_one {fsd : FSData} {rules : List PumlRule}
    {groups : List (List Nat)} {rm : Mat}
    (h : buildRuleMatrix fsd rules groups = .ok rm) (i j : Nat) :
    rm i j = 0 ∨ rm i j = 1 := by
  obtain ⟨m1, hm1, hrm⟩ := buildRuleMatrix_elim h
  have hP : ∀ a b, m1 a b = 0 ∨ m1 a b = 1 := by
    refine foldlM_except_ind (fun m => ∀ a b, m a b = 0 ∨ m a b = 1)
      (ruleStep fsd) rules _ m1 (fun a b => Or.inr rfl) ?_ hm1
    intro m' rule r' _ hm' hok a b
    rcases ruleStep_ok_cases hok a b with h0 | hsame
    · left; exact h0
    · rw [hsame]; exact hm' a b
  subst hrm
  rcases foldl_entry_cases groupStep i j (fun m g => groupStep_cases m g i j)
      groups m1 with h0 | hsame
  · left; exact h0
  · rw [hsame]; exact hP i j

/-- Both directions of a member pair of any recorded group are zero in
the built rule matrix (shared by claims C7 and C10). -/
theorem group_pair_zero_of_mem {fsd : FSData} {rules : List PumlRule}
    {groups : List (List Nat)} {rm : Mat}
    (hr : buildRuleMatrix fsd rules groups = .ok rm)
    {g : List Nat} (hg : g ∈ groups) {x y : Nat}
    (hx : x ∈ g) (hy : y ∈ g) (hxy : x ≠ y) :
    rm x y = 0 ∧ rm y x = 0 := by
  obtain ⟨m1, _, hrm⟩ := buildRuleMatrix_elim hr
  subst hrm
  constructor
  · exact foldl_mem_zero groupStep x y (fun m a => groupStep_cases m a x y) hg
      (fun m => (groupStep_pair_zero hx hy hxy m).1) m1
  · exact foldl_mem_zero groupStep y x (fun m a => groupStep_cases m a y x) hg
      (fun m => (groupStep_pair_zero hx hy hxy m).2) m1

/-! ## Claim C7 -/

/-- Claim C7: for every recorded `FSGroup` and every distinct pair of
its members, the built rule matrix is zero in both directions — the
edge is permitted both ways. -/
theorem c7_group_pairs_zero {fsd : FSData} {rules : List PumlRule}
    {groups : List (List Nat)} {rm : Mat}
    (hr : buildRuleMatrix fsd rules groups = .ok rm)
    {g : List Nat} (hg : g ∈ groups) {x y : Nat}
    (hx : x ∈ g) (hy : y ∈ g) (hxy : x ≠ y) :
    rm x y = 0 ∧ rm y x = 0 :=
  group_pair_zero_of_mem hr hg hx hy hxy

/-- Claim C7 (witness): the group `[1, 5]` zeroes both `(1,5)` and
`(5,1)` in a concrete rule matrix. -/
theorem c7_group_pairs_zero_witness :
    ∃ rm, buildRuleMatrix fsd5 [] [[1, 5]] = .ok rm ∧ rm 1 5 = 0 ∧ rm 5 1 = 0 := by
  have hr : buildRuleMatrix fsd5 [] [[1, 5]] =
      .ok (groupStep (fun _ _ => 1) [1, 5]) := rfl
  obtain ⟨h1, h2⟩ := c7_group_pairs_zero (x := 1) (y := 5) hr
    (List.mem_singleton.mpr rfl) (by decide) (by decide) (by decide)
  exact ⟨_, hr, h1, h2⟩

/-! ## Claim C1 -/

/-- Claim C1: with the allowed matrix and the observed matrix built, a
violation entry is positive exactly when the allowed entry is 1 and the
observed count is positive. -/
theorem c1_violation_iff {fsd : FSData} {rules : List PumlRule}
    {groups : List (List Nat)} {deps : List CodeDep} {rm : Mat}
    {dd : List ((Nat × Nat) × List CodeDep)} {dm : Mat}
    (hr : buildRuleMatrix fsd rules groups = .ok rm)
    (ho : buildObserved deps = .ok (dd, dm)) (i j : Nat) :
    0 < violationsMatrix rm dm i j ↔ rm i j = 1 ∧ 0 < dm i j := by
  unfold violationsMatrix
  constructor
  · intro hpos
    rcases buildRuleMatrix_zero_or_one hr i j with h0 | h1
    · rw [h0] at hpos
      simp at hpos
    · refine ⟨h1, ?_⟩
      rcases Nat.eq_zero_or_pos (dm i j) with hz | hp
      · rw [hz, Nat.mul_zero] at hpos
        exact absurd hpos (by simp)
      · exact hp
  · rintro ⟨h1, hdm⟩
    rw [h1]
    simpa using hdm

/-- Claim C1 (witness): the empty diagram model leaves `allowed = 1`
everywhere; the self-include dependency makes `(1,1)` observed, so the
equivalence is inhabited on both sides at `(1,1)`. -/
theorem c1_violation_iff_witness :
    0 < violationsMatrix (fun _ _ => 1) (matSet (fun _ _ => 0) 1 1 1) 1 1 ↔
      (fun _ _ => 1 : Mat) 1 1 = 1 ∧ 0 < matSet (fun _ _ => 0) 1 1 1 1 1 := by
  have hr : buildRuleMatrix fsd1 [] [] = .ok (fun _ _ => 1) := rfl
  have ho : buildObserved [incDep] =
      .ok ([((1, 1), [incDep])], matSet (fun _ _ => 0) 1 1 1) := rfl
  exact c1_violation_iff hr ho 1 1

/-! ## Observed-matrix lemmas (claim C9) -/

theorem dictGet_eq_none_of_not_mem {α β : Type} [DecidableEq α]
    {l : List (α × β)} {k : α} (h : k ∉ l.map Prod.fst) : dictGet l k = none := by
  induction l with
  | nil => rfl
  | cons p rest ih =>
    obtain ⟨k2, v⟩ := p
    rw [dictGet]
    have hk2 : k ≠ k2 := fun he => h (by simp [he])
    rw [ih (fun hm => h (List.mem_cons_of_mem _ hm))]
    simp [hk2]

theorem mem_keys_dictAppend {d : List ((Nat × Nat) × List CodeDep)}
    {k a : Nat × Nat} {v : CodeDep} :
    a ∈ (dictAppend d k v).map Prod.fst ↔ a ∈ d.map Prod.fst ∨ a = k := by
  induction d with
  | nil => simp [dictAppend]
  | cons p rest ih =>
    obtain ⟨k2, vs⟩ := p
    rw [dictAppend]
    by_cases hk : k2 = k
    · rw [if_pos hk]
      subst hk
      simp only [List.map_cons, List.mem_cons]
      tauto
    · rw [if_neg hk]
      simp only [List.map_cons, List.mem_cons, ih]
      tauto

theorem keys_nodup_dictAppend {d : List ((Nat × Nat) × List CodeDep)}
    {k : Nat × Nat} {v : CodeDep} (h : (d.map Prod.fst).Nodup) :
    ((dictAppend d k v).map Prod.fst).Nodup := by
  induction d with
  | nil => simp [dictAppend]
  | cons p rest ih =>
    obtain ⟨k2, vs⟩ := p
    rw [dictAppend]
    by_cases hk : k2 = k
    · rw [if_pos hk]
      simpa using h
    · rw [if_neg hk]
      rw [List.map_cons] at h ⊢
      rw [List.nodup_cons] at h ⊢
      refine ⟨?_, ih h.2⟩
      intro hmem
      rcases mem_keys_dictAppend.mp hmem with h2 | h2
      · exact h.1 h2
      · exact hk h2

theorem dictGet_dictAppend_same {d : List ((Nat × Nat) × List CodeDep)}
    {k : Nat × Nat} {v : CodeDep} (h : (d.map Prod.fst).Nodup) :
    dictGet (dictAppend d k v) k = some (((dictGet d k).getD []) ++ [v]) := by
  induction d with
  | nil => simp [dictAppend, dictGet]
  | cons p rest ih =>
    obtain ⟨k2, vs⟩ := p
    rw [List.map_cons, List.nodup_cons] at h
    rw [dictAppend]
    by_cases hk : k2 = k
    · subst hk
      rw [if_pos rfl, dictGet, dictGet]
      rw [dictGet_eq_none_of_not_mem h.1]
      simp
    · rw [if_neg hk, dictGet, dictGet, ih h.2]
      cases hr : dictGet rest k with
      | some l => simp
      | none => simp [hr, Ne.symm hk]

theorem dictGet_dictAppend_ne {d : List ((Nat × Nat) × List CodeDep)}
    {k k2 : Nat × Nat} {v : CodeDep} (h : k2 ≠ k) :
    dictGet (dictAppend d k v) k2 = dictGet d k2 := by
  induction d with
  | nil => simp [dictAppend, dictGet, h]
  | cons p rest ih =>
    obtain ⟨k3, vs⟩ := p
    rw [dictAppend]
    by_cases hk : k3 = k
    · subst hk
      rw [if_pos rfl, dictGet, dictGet]
      cases dictGet rest k2 with
      | some l => rfl
      | none => simp [h]
    · rw [if_neg hk, dictGet, dictGet, ih]

/-- Invariant of the grouping loop of `lib/arch.py`: the bucket keys are
distinct, and each bucket's length is the matrix count at its key. -/
theorem buildObserved_counts {deps : List CodeDep}
    {dd : List ((Nat × Nat) × List CodeDep)} {dm : Mat}
    (h : buildObserved deps = .ok (dd, dm)) :
    (dd.map Prod.fst).Nodup ∧
      ∀ i j : Nat, ((dictGet dd (i, j)).getD []).length = dm i j := by
  have := foldlM_except_ind
    (fun acc : List ((Nat × Nat) × List CodeDep) × Mat =>
      (acc.1.map Prod.fst).Nodup ∧
        ∀ i j : Nat, ((dictGet acc.1 (i, j)).getD []).length = acc.2 i j)
    obsStep deps ([], fun _ _ => 0) (dd, dm)
    ⟨List.nodup_nil, fun i j => rfl⟩ ?_ h
  · exact this
  · intro acc dep r' _ hacc hok
    unfold obsStep at hok
    cases hs : dep.src.fs_id with
    | none => rw [hs] at hok; cases hok
    | some s =>
      cases hd : dep.dst.fs_id with
      | none => rw [hs, hd] at hok; cases hok
      | some d =>
        rw [hs, hd] at hok
        cases hok
        refine ⟨keys_nodup_dictAppend hacc.1, fun i j => ?_⟩
        dsimp only
        by_cases hij : (i, j) = (s, d)
        · injection hij with h1 h2
          subst h1
          subst h2
          rw [dictGet_dictAppend_same hacc.1]
          have h2 := hacc.2 i j
          simp [matSet, List.length_append, h2]
        · rw [dictGet_dictAppend_ne hij]
          rw [matSet_ne (fun hc => hij (by rw [hc.1, hc.2]))]
          exact hacc.2 i j

theorem mem_nonzeroPairs {n : Nat} {m : Mat} {p : Nat × Nat}
    (h : p ∈ nonzeroPairs n m) : 0 < m p.1 p.2 := by
  unfold nonzeroPairs at h
  obtain ⟨i, _, hi⟩ := List.mem_flatMap.mp h
  obtain ⟨j, _, hj⟩ := List.mem_filterMap.mp hi
  by_cases hm : 0 < m i j
  · rw [if_pos hm] at hj
    cases hj
    exact hm
  · rw [if_neg hm] at hj
    cases hj

theorem codeDepViolations_length {dd : List ((Nat × Nat) × List CodeDep)} :
    ∀ (pairs : List (Nat × Nat)) (acc : List CodeDep),
      (∀ p ∈ pairs, dictGet dd p ≠ none) →
      ∃ l, List.foldlM (cdvStep dd) acc pairs = .ok l ∧
        l.length = acc.length +
          (pairs.map (fun p => ((dictGet dd p).getD []).length)).sum
  | [], acc, _ => ⟨acc, rfl, by simp⟩
  | p :: rest, acc, hsome => by
    cases hp : dictGet dd p with
    | none => exact absurd hp (hsome p (List.mem_cons_self _ _))
    | some l =>
      obtain ⟨r, hr, hlen⟩ := codeDepViolations_length rest (acc ++ l)
        (fun q hq => hsome q (List.mem_cons_of_mem _ hq))
      refine ⟨r, ?_, ?_⟩
      · simp only [List.foldlM]
        rw [show cdvStep dd acc p = .ok (acc ++ l) by rw [cdvStep, hp]]
        simpa [Bind.bind, Except.bind] using hr
      · rw [hlen]
        simp only [List.map_cons, List.sum_cons, List.length_append, hp,
          Option.getD_some]
        omega

/-! ## Claim C9 -/

/-- Claim C9: the count printed as `TOTAL VIOLATIONS` — the length of
the expanded violation list — is the sum of the observed counts over
all violating pairs, i.e. it counts individual dependencies, not
distinct violating file pairs. -/
theorem c9_total_violations {deps : List CodeDep}
    {dd : List ((Nat × Nat) × List CodeDep)} {dm : Mat} (n : Nat) (rm : Mat)
    (ho : buildObserved deps = .ok (dd, dm)) :
    ∃ l, codeDepViolations dd (nonzeroPairs n (violationsMatrix rm dm)) = .ok l ∧
      l.length = ((nonzeroPairs n (violationsMatrix rm dm)).map
        (fun p => dm p.1 p.2)).sum := by
  obtain ⟨hnd, hcount⟩ := buildObserved_counts ho
  have hpos : ∀ p ∈ nonzeroPairs n (violationsMatrix rm dm), 0 < dm p.1 p.2 := by
    intro p hp
    have hv := mem_nonzeroPairs hp
    unfold violationsMatrix at hv
    rcases Nat.eq_zero_or_pos (dm p.1 p.2) with hz | hpp
    · rw [hz, Nat.mul_zero] at hv
      exact absurd hv (by simp)
    · exact hpp
  have hsome : ∀ p ∈ nonzeroPairs n (violationsMatrix rm dm), dictGet dd p ≠ none := by
    intro p hp hnone
    have := hcount p.1 p.2
    rw [hnone] at this
    simp only [Option.getD_none, List.length_nil] at this
    exact absurd (this ▸ hpos p hp) (by simp)
  obtain ⟨l, hl, hlen⟩ := codeDepViolations_length
    (nonzeroPairs n (violationsMatrix rm dm)) [] hsome
  refine ⟨l, hl, ?_⟩
  rw [hlen, List.length_nil, Nat.zero_add]
  congr 1
  refine List.map_congr_left (fun p _ => ?_)
  have h2 := hcount p.1 p.2
  rwa [Prod.mk.eta] at h2

/-- Claim C9 (witness): a single self-include dependency on the
all-ones allowed matrix — one violating pair with observed count 1. -/
theorem c9_total_violations_witness :
    ∃ l, codeDepViolations [((1, 1), [incDep])]
        (nonzeroPairs 2 (violationsMatrix (fun _ _ => 1)
          (matSet (fun _ _ => 0) 1 1 1))) = .ok l ∧
      l.length = ((nonzeroPairs 2 (violationsMatrix (fun _ _ => 1)
          (matSet (fun _ _ => 0) 1 1 1))).map
        (fun p => matSet (fun _ _ => 0) 1 1 1 p.1 p.2)).sum := by
  have ho : buildObserved [incDep] =
      .ok ([((1, 1), [incDep])], matSet (fun _ _ => 0) 1 1 1) := rfl
  exact c9_total_violations 2 (fun _ _ => 1) ho

/-! ## Claim C3 -/

/-- Claim C3 (code evaluated at the failing input): the walker emits a
self-include dependency with an absent destination `CodeNode`; it is
grouped, its pair `(1,1)` is violating under the all-ones allowed
matrix and it is expanded into the report list — and the report writer
then raises `AttributeError` on `dep.dst.code_node.file` instead of
producing its CSV line. -/
theorem c3_report_crash :
    handleCursor (fun s => s) (fun s => s) fsd1 (Cursor.mk inc1 []) = [incDep] ∧
      incDep.dst.code_node = none ∧
      buildObserved [incDep] = .ok ([((1, 1), [incDep])], matSet (fun _ _ => 0) 1 1 1) ∧
      nonzeroPairs 2 (violationsMatrix (fun _ _ => 1) (matSet (fun _ _ => 0) 1 1 1)) =
        [(1, 1)] ∧
      codeDepViolations [((1, 1), [incDep])] [(1, 1)] = .ok [incDep] ∧
      violationsReport [incDep] = .error "AttributeError" := by
  exact ⟨rfl, rfl, rfl, rfl, rfl, rfl⟩

/-! ## Claim C2 -/

theorem file_index_id_inj {fsd : FSData}
    (hidx : (fsd.file_index.map (fun pe => pe.2.id)).Nodup)
    {k1 k2 : String} {e1 e2 : FSEntry}
    (h1 : dictGet fsd.file_index k1 = some e1)
    (h2 : dictGet fsd.file_index k2 = some e2)
    (he : e1.id = e2.id) : k1 = k2 := by
  have m1 := dictGet_mem h1
  have m2 := dictGet_mem h2
  have h3 := List.inj_on_of_nodup_map hidx m1 m2 he
  exact congrArg Prod.fst h3

theorem cursorFilter_true_elim {info : CurInfo} (h : cursorFilter info = .ok true) :
    ∃ r f rf, info.referenced = some r ∧ info.file = some f ∧
      r.file = some rf ∧ f ≠ rf := by
  unfold cursorFilter at h
  cases href : info.referenced with
  | none => rw [href] at h; simp at h
  | some r =>
    rw [href] at h
    dsimp only at h
    by_cases hsys : r.inSysHeader
    · rw [if_pos hsys] at h; simp at h
    · rw [if_neg hsys] at h
      cases hrf : r.file with
      | none => rw [hrf] at h; simp at h
      | some rf =>
        rw [hrf] at h
        dsimp only at h
        cases hf : info.file with
        | none => rw [hf] at h; simp at h
        | some f =>
          rw [hf] at h
          dsimp only at h
          refine ⟨r, f, rf, rfl, rfl, hrf, ?_⟩
          have h2 := Except.ok.inj h
          exact of_decide_eq_true h2

theorem createCodeDep_inc_elim {rp ap : String → String} {fsd : FSData}
    {info : CurInfo} {inc : String} {dep : CodeDep}
    (h : createCodeDep rp ap fsd info (some inc) = .ok (some dep)) :
    dep.src.fs_id ≠ none ∧ dep.dst.fs_id ≠ none ∧ dep.dst.code_node = none := by
  unfold createCodeDep at h
  dsimp only at h
  cases hd : getCursorFsId ap fsd inc with
  | none => rw [hd] at h; simp at h
  | some d =>
    rw [hd] at h
    cases hs : getCursorFsId ap fsd (mkCodeNode rp info.toCurBase).file with
    | none => rw [hs] at h; simp at h
    | some s =>
      rw [hs] at h
      have h2 := Except.ok.inj h
      have h3 := Option.some.inj h2
      rw [← h3]
      exact ⟨by simp, by simp, rfl⟩

theorem createCodeDep_ref_elim {rp ap : String → String} {fsd : FSData}
    {info : CurInfo} {dep : CodeDep} {r : CurBase} {f rf : String}
    (href : info.referenced = some r) (hf : info.file = some f)
    (hrf : r.file = some rf)
    (h : createCodeDep rp ap fsd info none = .ok (some dep)) :
    ∃ e1 e2, dictGet fsd.file_index (ap (rp f)) = some e1 ∧
      dictGet fsd.file_index (ap (rp rf)) = some e2 ∧
      dep.src.fs_id = some e1.id ∧ dep.dst.fs_id = some e2.id ∧
      dep.dst.code_node ≠ none := by
  unfold createCodeDep at h
  rw [href] at h
  dsimp only at h
  rw [hrf] at h
  dsimp only [mkCodeNode] at h
  rw [hf, hrf] at h
  dsimp only [pyStr] at h
  unfold getCursorFsId at h
  cases h1 : dictGet fsd.file_index (ap (rp f)) with
  | none =>
    rw [h1] at h
    cases h2 : dictGet fsd.file_index (ap (rp rf)) with
    | none => rw [h2] at h; simp at h
    | some e2 => rw [h2] at h; simp at h
  | some e1 =>
    rw [h1] at h
    cases h2 : dictGet fsd.file_index (ap (rp rf)) with
    | none => rw [h2] at h; simp at h
    | some e2 =>
      rw [h2] at h
      simp only [Option.map_some'] at h
      have h3 := Option.some.inj (Except.ok.inj h)
      rw [← h3]
      exact ⟨e1, e2, rfl, rfl, rfl, rfl, by simp⟩

mutual

theorem handleCursor_endpoints (rp ap : String → String) (fsd : FSData)
    (L : List String)
    (hidx : (fsd.file_index.map (fun pe => pe.2.id)).Nodup)
    (hinj : ∀ f1 ∈ L, ∀ f2 ∈ L, ap (rp f1) = ap (rp f2) → f1 = f2) :
    ∀ (c : Cursor), (∀ f ∈ cursorFileNames c, f ∈ L) →
      ∀ dep ∈ handleCursor rp ap fsd c, depEndpointsOk dep
  | .mk info children, hsub, dep, hdep => by
    rw [handleCursor] at hdep
    by_cases hskip : cursorSkip info
    · rw [if_pos hskip] at hdep
      cases hdep
    · rw [if_neg hskip] at hdep
      dsimp only at hdep
      rcases List.mem_append.mp hdep with hchild | hown
      · refine handleCursorList_endpoints rp ap fsd L hidx hinj children ?_ dep hchild
        intro g hg
        refine hsub g ?_
        rw [cursorFileNames]
        exact List.mem_append_right _ hg
      · by_cases hkind : cursorKindFilter info.kindVal
        · rw [if_pos hkind] at hown
          by_cases h503 : info.kindVal = 503
          · rw [if_pos h503] at hown
            cases hincf : info.includedFile with
            | none => rw [hincf] at hown; simp at hown
            | some inc =>
              rw [hincf] at hown
              dsimp only at hown
              cases hc : createCodeDep rp ap fsd info (some inc) with
              | error e => rw [hc] at hown; simp at hown
              | ok o =>
                rw [hc] at hown
                cases o with
                | none => simp at hown
                | some dep2 =>
                  dsimp only at hown
                  obtain rfl := List.mem_singleton.mp hown
                  obtain ⟨hs, hd, hnode⟩ := createCodeDep_inc_elim hc
                  exact ⟨hs, hd, fun hne => absurd hnode hne⟩
          · rw [if_neg h503] at hown
            cases hfil : cursorFilter info with
            | error e => rw [hfil] at hown; simp at hown
            | ok b =>
              rw [hfil] at hown
              cases b with
              | false => simp at hown
              | true =>
                dsimp only at hown
                cases hc : createCodeDep rp ap fsd info none with
                | error e => rw [hc] at hown; simp at hown
                | ok o =>
                  rw [hc] at hown
                  cases o with
                  | none => simp at hown
                  | some dep2 =>
                    dsimp only at hown
                    obtain rfl := List.mem_singleton.mp hown
                    obtain ⟨r, f, rf, href, hf, hrf, hfne⟩ :=
                      cursorFilter_true_elim hfil
                    obtain ⟨e1, e2, h1, h2, hsrc, hdst, hnode⟩ :=
                      createCodeDep_ref_elim href hf hrf hc
                    refine ⟨by rw [hsrc]; simp, by rw [hdst]; simp, ?_⟩
                    intro _ heq
                    rw [hsrc, hdst] at heq
                    have hid := Option.some.inj heq
                    have hkey := file_index_id_inj hidx h1 h2 hid
                    have hf1 : f ∈ L :=
                      hsub f (by simp [cursorFileNames, hf, pyStr])
                    have hf2 : rf ∈ L :=
                      hsub rf (by simp [cursorFileNames, href, hrf, pyStr])
                    exact hfne (hinj f hf1 rf hf2 hkey)
        · rw [if_neg hkind] at hown
          cases hown

theorem handleCursorList_endpoints (rp ap : String → String) (fsd : FSData)
    (L : List String)
    (hidx : (fsd.file_index.map (fun pe => pe.2.id)).Nodup)
    (hinj : ∀ f1 ∈ L, ∀ f2 ∈ L, ap (rp f1) = ap (rp f2) → f1 = f2) :
    ∀ (cs : List Cursor), (∀ f ∈ cursorFileNamesList cs, f ∈ L) →
      ∀ dep ∈ handleCursorList rp ap fsd cs, depEndpointsOk dep
  | [], _, dep, hdep => by rw [handleCursorList] at hdep; cases hdep
  | c :: cs, hsub, dep, hdep => by
    rw [handleCursorList] at hdep
    rcases List.mem_append.mp hdep with h1 | h2
    · refine handleCursor_endpoints rp ap fsd L hidx hinj c ?_ dep h1
      intro g hg
      refine hsub g ?_
      rw [cursorFileNamesList]
      exact List.mem_append_left _ hg
    · refine handleCursorList_endpoints rp ap fsd L hidx hinj cs ?_ dep h2
      intro g hg
      refine hsub g ?_
      rw [cursorFileNamesList]
      exact List.mem_append_right _ hg

end

/-- Claim C2 (counterexample): the walker emits the self-include edge
of `inc1` with `src.fs_id = dst.fs_id = 1` — inclusion edges are never
checked against the same-file rule, so `s ≠ d` fails. -/
theorem c2_counterexample :
    handleCursor (fun s => s) (fun s => s) fsd1 (Cursor.mk inc1 []) = [incDep] ∧
      incDep.src.fs_id = incDep.dst.fs_id ∧ incDep.src.fs_id = some 1 := by
  exact ⟨rfl, rfl, rfl⟩

/-- Claim C2 (amended): every emitted `CodeDep` has non-null filesystem
ids at both endpoints; a non-inclusion reference edge (destination
`CodeNode` present) additionally has distinct endpoint ids whenever
path canonicalization is injective on the tree's file names and the
file index maps distinct paths to distinct ids.  Inclusion edges are
not subject to the same-file check (see the counterexample). -/
theorem c2_endpoints (rp ap : String → String) (fsd : FSData) (c : Cursor)
    (hidx : (fsd.file_index.map (fun pe => pe.2.id)).Nodup)
    (hinj : ∀ f1 ∈ cursorFileNames c, ∀ f2 ∈ cursorFileNames c,
      ap (rp f1) = ap (rp f2) → f1 = f2) :
    ∀ dep ∈ handleCursor rp ap fsd c, depEndpointsOk dep :=
  handleCursor_endpoints rp ap fsd (cursorFileNames c) hidx hinj c (fun _ hf => hf)

/-- Claim C2 (witness): the concrete cross-file reference edge `refDep`
satisfies the endpoint invariant. -/
theorem c2_endpoints_witness : depEndpointsOk refDep :=
  c2_endpoints (fun s => s) (fun s => s) fsd5 (Cursor.mk ref1 [])
    (by decide) (by decide) refDep (by decide)

/-! ## Store lemmas (claim C10) -/

theorem storeGet_storeSet_same (st : Store) (i : Nat) (v : List Nat) :
    storeGet (storeSet st i v) i = some v := by
  induction st with
  | nil => simp [storeSet, storeGet]
  | cons p rest ih =>
    obtain ⟨j, w⟩ := p
    rw [storeSet]
    by_cases hj : j = i
    · rw [if_pos hj, storeGet, if_pos rfl]
    · rw [if_neg hj, storeGet, if_neg hj]
      exact ih

theorem storeGet_storeSet_ne (st : Store) {i j : Nat} (v : List Nat) (h : j ≠ i) :
    storeGet (storeSet st i v) j = storeGet st j := by
  induction st with
  | nil => simp [storeSet, storeGet, Ne.symm h]
  | cons p rest ih =>
    obtain ⟨k, w⟩ := p
    rw [storeSet]
    by_cases hk : k = i
    · subst hk
      rw [if_pos rfl, storeGet, storeGet, if_neg (Ne.symm h), if_neg (Ne.symm h)]
    · rw [if_neg hk, storeGet, storeGet]
      by_cases hkj : k = j <;> simp [hkj, ih]

theorem nodeId_mem_nodeIds : ∀ (c : PumlNode), c.id ∈ nodeIds c
  | .mk i t nm v ster cs => by
    rw [nodeIds, PumlNode.id]
    exact List.mem_cons_self _ _

theorem nodeIds_subset_list {j : Nat} :
    ∀ {cs : List PumlNode} {c : PumlNode}, c ∈ cs → j ∈ nodeIds c →
      j ∈ nodeIdsList cs := by
  intro cs
  induction cs with
  | nil => intro c hc; cases hc
  | cons a rest ih =>
    intro c hc hj
    rw [nodeIdsList]
    rcases List.mem_cons.mp hc with rfl | hc2
    · exact List.mem_append_left _ hj
    · exact List.mem_append_right _ (ih hc2 hj)

mutual

theorem getDescFsIds_frame :
    ∀ (st : Store) (n : PumlNode) (st2 : Store) (ret : List Nat),
      getDescFsIds st n = .ok (st2, ret) →
      ∀ j, j ∉ nodeIds n → storeGet st2 j = storeGet st j
  | st, .mk i t nm v ster cs, st2, ret, h, j, hj => by
    rw [getDescFsIds] at h
    cases hg : storeGet st i with
    | none => rw [hg] at h; cases h
    | some ids =>
      rw [hg] at h
      dsimp only at h
      cases hl : getDescFsIdsList st cs ids with
      | error e => rw [hl] at h; cases h
      | ok pr =>
        obtain ⟨st1, acc⟩ := pr
        rw [hl] at h
        dsimp only at h
        injection h with h2
        injection h2 with h3 h4
        subst h3
        rw [nodeIds] at hj
        have hij : j ≠ i := fun he => hj (he ▸ List.mem_cons_self _ _)
        rw [storeGet_storeSet_ne st1 acc hij]
        exact getDescFsIdsList_frame st cs ids st1 acc hl j
          (fun hm => hj (List.mem_cons_of_mem _ hm))

theorem getDescFsIdsList_frame :
    ∀ (st : Store) (cs : List PumlNode) (acc : List Nat) (st2 : Store)
      (out : List Nat),
      getDescFsIdsList st cs acc = .ok (st2, out) →
      ∀ j, j ∉ nodeIdsList cs → storeGet st2 j = storeGet st j
  | st, [], acc, st2, out, h, j, hj => by
    rw [getDescFsIdsList] at h
    injection h with h2
    injection h2 with h3 h4
    subst h3
    rfl
  | st, c :: rest, acc, st2, out, h, j, hj => by
    rw [getDescFsIdsList] at h
    cases hp : storeGet st c.id with
    | none => rw [hp] at h; cases h
    | some pre =>
      rw [hp] at h
      dsimp only at h
      cases hc : getDescFsIds st c with
      | error e => rw [hc] at h; cases h
      | ok pr =>
        obtain ⟨st1, ret1⟩ := pr
        rw [hc] at h
        dsimp only at h
        rw [nodeIdsList] at hj
        have hj1 : j ∉ nodeIds c := fun hm => hj (List.mem_append_left _ hm)
        have hj2 : j ∉ nodeIdsList rest := fun hm => hj (List.mem_append_right _ hm)
        rw [getDescFsIdsList_frame st1 rest _ st2 out h j hj2]
        exact getDescFsIds_frame st c st1 ret1 hc j hj1

end

mutual

theorem subtreeFsIds_congr :
    ∀ (st1 st2 : Store) (n : PumlNode),
      (∀ j ∈ nodeIds n, storeGet st1 j = storeGet st2 j) →
      subtreeFsIds st1 n = subtreeFsIds st2 n
  | st1, st2, .mk i t nm v ster cs, hag => by
    rw [subtreeFsIds, subtreeFsIds]
    rw [hag i (by rw [nodeIds]; exact List.mem_cons_self _ _)]
    rw [subtreeFsIdsList_congr st1 st2 cs
      (fun j hj => hag j (by rw [nodeIds]; exact List.mem_cons_of_mem _ hj))]

theorem subtreeFsIdsList_congr :
    ∀ (st1 st2 : Store) (cs : List PumlNode),
      (∀ j ∈ nodeIdsList cs, storeGet st1 j = storeGet st2 j) →
      subtreeFsIdsList st1 cs = subtreeFsIdsList st2 cs
  | _, _, [], _ => rfl
  | st1, st2, c :: rest, hag => by
    rw [subtreeFsIdsList, subtreeFsIdsList]
    rw [subtreeFsIds_congr st1 st2 c
      (fun j hj => hag j (by rw [nodeIdsList]; exact List.mem_append_left _ hj))]
    rw [subtreeFsIdsList_congr st1 st2 rest
      (fun j hj => hag j (by rw [nodeIdsList]; exact List.mem_append_right _ hj))]

end

theorem mem_subtreeFsIdsList {st : Store} {x : Nat} :
    ∀ {cs : List PumlNode}, x ∈ subtreeFsIdsList st cs →
      ∃ c ∈ cs, x ∈ subtreeFsIds st c := by
  intro cs
  induction cs with
  | nil => intro hx; rw [subtreeFsIdsList] at hx; cases hx
  | cons c rest ih =>
    intro hx
    rw [subtreeFsIdsList] at hx
    rcases List.mem_append.mp hx with h1 | h2
    · exact ⟨c, List.mem_cons_self _ _, h1⟩
    · obtain ⟨c2, hc2, hxc⟩ := ih h2
      exact ⟨c2, List.mem_cons_of_mem _ hc2, hxc⟩

theorem getDescFsIdsList_extends :
    ∀ (st : Store) (cs : List PumlNode) (acc : List Nat) (st2 : Store)
      (out : List Nat),
      getDescFsIdsList st cs acc = .ok (st2, out) → ∃ t, out = acc ++ t
  | st, [], acc, st2, out, h => by
    rw [getDescFsIdsList] at h
    injection h with h2
    injection h2 with h3 h4
    exact ⟨[], by rw [← h4]; simp⟩
  | st, c :: rest, acc, st2, out, h => by
    rw [getDescFsIdsList] at h
    cases hp : storeGet st c.id with
    | none => rw [hp] at h; cases h
    | some pre =>
      rw [hp] at h
      dsimp only at h
      cases hc : getDescFsIds st c with
      | error e => rw [hc] at h; cases h
      | ok pr =>
        obtain ⟨st1, ret1⟩ := pr
        rw [hc] at h
        dsimp only at h
        obtain ⟨t, ht⟩ := getDescFsIdsList_extends st1 rest (acc ++ pre ++ ret1) st2 out h
        exact ⟨pre ++ ret1 ++ t, by rw [ht]; simp [List.append_assoc]⟩

mutual

theorem getDescFsIds_closure :
    ∀ (st : Store) (n : PumlNode) (st2 : Store) (ret : List Nat),
      (nodeIds n).Nodup →
      getDescFsIds st n = .ok (st2, ret) →
      storeGet st2 n.id = some ret ∧
        (∀ x ∈ subtreeFsIds st n, x ∈ ret) ∧
        (∀ c ∈ n.children, ∀ x ∈ (storeGet st c.id).getD [], 2 ≤ ret.count x)
  | st, .mk i t nm v ster cs, st2, ret, hnd, h => by
    rw [getDescFsIds] at h
    cases hg : storeGet st i with
    | none => rw [hg] at h; cases h
    | some ids =>
      rw [hg] at h
      dsimp only at h
      cases hl : getDescFsIdsList st cs ids with
      | error e => rw [hl] at h; cases h
      | ok pr =>
        obtain ⟨st1, acc⟩ := pr
        rw [hl] at h
        dsimp only at h
        injection h with h2
        injection h2 with h3 h4
        subst h3
        subst h4
        rw [nodeIds] at hnd
        obtain ⟨hacc, hsub2, hdup⟩ :=
          getDescFsIdsList_closure st cs ids st1 acc (List.nodup_cons.mp hnd).2 hl
        refine ⟨?_, ?_, ?_⟩
        · rw [PumlNode.id]
          exact storeGet_storeSet_same st1 i acc
        · intro x hx
          rw [subtreeFsIds, hg] at hx
          rcases List.mem_append.mp hx with hx1 | hx2
          · exact hacc x hx1
          · obtain ⟨c, hc, hxc⟩ := mem_subtreeFsIdsList hx2
            exact hsub2 c hc x hxc
        · intro c hc x hx
          rw [PumlNode.children] at hc
          exact hdup c hc x hx

theorem getDescFsIdsList_closure :
    ∀ (st : Store) (cs : List PumlNode) (acc : List Nat) (st2 : Store)
      (out : List Nat),
      (nodeIdsList cs).Nodup →
      getDescFsIdsList st cs acc = .ok (st2, out) →
      (∀ x ∈ acc, x ∈ out) ∧
        (∀ c ∈ cs, ∀ x ∈ subtreeFsIds st c, x ∈ out) ∧
        (∀ c ∈ cs, ∀ x ∈ (storeGet st c.id).getD [], 2 ≤ out.count x)
  | st, [], acc, st2, out, hnd, h => by
    rw [getDescFsIdsList] at h
    injection h with h2
    injection h2 with h3 h4
    subst h4
    exact ⟨fun x hx => hx, fun c hc => absurd hc (List.not_mem_nil c),
      fun c hc => absurd hc (List.not_mem_nil c)⟩
  | st, c :: rest, acc, st2, out, hnd, h => by
    rw [getDescFsIdsList] at h
    cases hp : storeGet st c.id with
    | none => rw [hp] at h; cases h
    | some pre =>
      rw [hp] at h
      dsimp only at h
      cases hc : getDescFsIds st c with
      | error e => rw [hc] at h; cases h
      | ok pr =>
        obtain ⟨st1, ret1⟩ := pr
        rw [hc] at h
        dsimp only at h
        rw [nodeIdsList] at hnd
        rw [List.nodup_append] at hnd
        obtain ⟨hndc, hndr, hdisj⟩ := hnd
        obtain ⟨hc_store, hc_sub, hc_dup⟩ :=
          getDescFsIds_closure st c st1 ret1 hndc hc
        obtain ⟨hr_acc, hr_sub, hr_dup⟩ :=
          getDescFsIdsList_closure st1 rest (acc ++ pre ++ ret1) st2 out hndr h
        have hfr := getDescFsIds_frame st c st1 ret1 hc
        have hpre_sub : ∀ x ∈ pre, x ∈ ret1 := by
          intro x hx
          refine hc_sub x ?_
          cases c with
          | mk ci ct cnm cv cster ccs =>
            rw [subtreeFsIds]
            rw [PumlNode.id] at hp
            rw [hp]
            exact List.mem_append_left _ hx
        refine ⟨?_, ?_, ?_⟩
        · intro x hx
          exact hr_acc x (List.mem_append_left _ (List.mem_append_left _ hx))
        · intro c2 hc2 x hx
          rcases List.mem_cons.mp hc2 with rfl | hc3
          · exact hr_acc x (List.mem_append_right _ (hc_sub x hx))
          · have hst : subtreeFsIds st1 c2 = subtreeFsIds st c2 := by
              refine subtreeFsIds_congr st1 st c2 (fun j hj => ?_)
              exact hfr j (fun hjc =>
                hdisj hjc (nodeIds_subset_list hc3 hj))
            exact hr_sub c2 hc3 x (by rw [hst]; exact hx)
        · intro c2 hc2 x hx
          rcases List.mem_cons.mp hc2 with rfl | hc3
          · rw [hp] at hx
            have hx1 : x ∈ ret1 := hpre_sub x hx
            obtain ⟨tl, htl⟩ := getDescFsIdsList_extends st1 rest
              (acc ++ pre ++ ret1) st2 out h
            rw [htl]
            rw [List.count_append, List.count_append, List.count_append]
            have hc1 : 1 ≤ pre.count x := List.count_pos_iff.mpr hx
            have hc2 : 1 ≤ ret1.count x := List.count_pos_iff.mpr hx1
            omega
          · have hsg : storeGet st1 c2.id = storeGet st c2.id :=
              hfr c2.id (fun hjc =>
                hdisj hjc (nodeIds_subset_list hc3 (nodeId_mem_nodeIds c2)))
            refine hr_dup c2 hc3 x ?_
            rw [hsg]
            exact hx

end

/-! ## Claim C10 -/

/-- Claim C10: `_get_desc_fs_ids` is not side-effect free — after it
runs on a relationship endpoint, the heap cell holding the node's
`fs_ids` list (the same cell `fs_groups` aliases) contains the returned
closure, which includes every descendant's ids, with the ids of each
direct child's original list occurring at least twice; feeding the
enlarged group to the conformance engine therefore zeroes (permits)
both directions between any two distinct members, in particular
between the node's own files and its descendants' files. -/
theorem c10_desc_closure_mutation {st st2 : Store} {n : PumlNode} {ret : List Nat}
    (hnd : (nodeIds n).Nodup)
    (h : getDescFsIds st n = .ok (st2, ret))
    {fsd : FSData} {rules : List PumlRule} {groups : List (List Nat)} {rm : Mat}
    (hrm : buildRuleMatrix fsd rules (groups ++ [ret]) = .ok rm)
    {x y : Nat} (hx : x ∈ subtreeFsIds st n) (hy : y ∈ subtreeFsIds st n)
    (hxy : x ≠ y) :
    storeGet st2 n.id = some ret ∧
      (∀ z ∈ subtreeFsIds st n, z ∈ ret) ∧
      (∀ c ∈ n.children, ∀ z ∈ (storeGet st c.id).getD [], 2 ≤ ret.count z) ∧
      rm x y = 0 ∧ rm y x = 0 := by
  obtain ⟨h1, h2, h3⟩ := getDescFsIds_closure st n st2 ret hnd h
  obtain ⟨hz1, hz2⟩ := group_pair_zero_of_mem hrm
    (List.mem_append_right _ (List.mem_singleton.mpr rfl))
    (h2 x hx) (h2 y hy) hxy
  exact ⟨h1, h2, h3, hz1, hz2⟩

/-- Claim C10 (witness): the three-level diagram; node 0's heap cell
grows to `[10, 11, 11, 12, 12]` (child ids duplicated), and the pair
`(10, 11)` — the node's own file against its child's file — is zeroed
in both directions. -/
theorem c10_desc_closure_mutation_witness :
    storeGet [(0, [10, 11, 11, 12, 12]), (1, [11, 12, 12]), (2, [12])]
        (PumlNode.id puml0) = some [10, 11, 11, 12, 12] ∧
      (∀ z ∈ subtreeFsIds st0 puml0, z ∈ [10, 11, 11, 12, 12]) ∧
      (∀ c ∈ puml0.children, ∀ z ∈ (storeGet st0 c.id).getD [],
        2 ≤ ([10, 11, 11, 12, 12] : List Nat).count z) ∧
      groupStep (fun _ _ => 1) [10, 11, 11, 12, 12] 10 11 = 0 ∧
      groupStep (fun _ _ => 1) [10, 11, 11, 12, 12] 11 10 = 0 := by
  have h : getDescFsIds st0 puml0 =
      .ok ([(0, [10, 11, 11, 12, 12]), (1, [11, 12, 12]), (2, [12])],
        [10, 11, 11, 12, 12]) := rfl
  have hrm : buildRuleMatrix fsd1 [] ([] ++ [[10, 11, 11, 12, 12]]) =
      .ok (groupStep (fun _ _ => 1) [10, 11, 11, 12, 12]) := rfl
  exact c10_desc_closure_mutation (by decide) h hrm (by decide) (by decide) (by decide)

end Architector
